import Mathlib

/-!
Verification development for the Go traceroute program (final flag-driven
version: `main` and `probe`).  The probe/response correlation engine is
embedded shallowly:

* bytes are `Nat` values (`< 256` where it matters), datagrams are `List Nat`;
* `parseMessage` models `icmp.ParseMessage` from golang.org/x/net/icmp for
  the IPv4 protocol family, at the fidelity the program relies on: an
  Echo Reply body yields the big-endian identifier and sequence fields, a
  Time-Exceeded body yields its `Data` slice (the bytes after the 8-byte
  outer ICMP header, truncated to 128 bytes as the library's
  `parseMultipartMessageBody` does when no RFC 4884 extension structure is
  present — the case for the zero "unused" word used throughout);
* `waitStep` / `waitLoop` embed the `for { conn.ReadFrom ... }` wait loop of
  `probe`: each read either fails (deadline exceeded or another transport
  error) or yields a datagram that is classified exactly as the Go switch
  does.  The unconditional slicings `Data[24:26]` and `Data[26:28]` are
  embedded faithfully: when `Data` is too short they are a Go runtime panic
  (`slice bounds out of range`, since the library allocates `Data` with
  exact length and capacity), modelled by the `panicked` outcome;
* `marshalMessage` models `icmp.Message.Marshal` for the Echo Request the
  program builds (type 8, code 0, "hello" payload) including the internet
  checksum computation (`goChecksum` is the library's `checksum` function);
* `runAux` / `runDriver` embed the TTL-escalation loop of `main`, with the
  outcome of each individual probe abstracted by an oracle keyed on
  (TTL, sequence) — `probe`'s Go signature returns exactly a responder, a
  round-trip time, a message type (EchoReply or TimeExceeded) and an error.
-/

namespace Traceroute

/-- `binary.BigEndian.Uint16` on two bytes: `hi*256 + lo` (equal to
`hi<<8 | lo` for byte values below 256). -/
def be16 (hi lo : Nat) : Nat := hi * 256 + lo

/-- The decoded form of an inbound ICMP message, as far as the program
inspects it.  `echoReply` carries the identifier and sequence fields of the
`icmp.Echo` body plus its trailing data; `timeExceeded` carries the
`icmp.TimeExceeded` `Data` slice; every other ICMP type falls through the
program's switch and is only remembered by its type byte. -/
inductive IcmpMsg
  | echoReply (id seq : Nat) (data : List Nat)
  | timeExceeded (data : List Nat)
  | other (typ : Nat)
  deriving DecidableEq

/-- Model of `icmp.ParseMessage(1, b)` (IPv4 family).  The library rejects
messages shorter than the 4-byte ICMP header; an Echo Reply (type 0) also
needs a 4-byte body holding the identifier and sequence; a Time Exceeded
(type 11) also needs the 4-byte unused word, after which `Data` is the rest
of the message truncated to 128 bytes (the library copies exactly
`min (len-8) 128` bytes into a fresh slice when no RFC 4884 extension
structure is present).  Other types never reach the program's switch cases,
so their bodies are not modelled. -/
def parseMessage (b : List Nat) : Option IcmpMsg :=
  if b.length < 4 then none
  else
    let typ := b.getD 0 0
    let body := b.drop 4
    if typ = 0 then
      if body.length < 4 then none
      else some (.echoReply (be16 (body.getD 0 0) (body.getD 1 0))
                            (be16 (body.getD 2 0) (body.getD 3 0))
                            (body.drop 4))
    else if typ = 11 then
      if body.length < 4 then none
      else some (.timeExceeded ((body.drop 4).take 128))
    else some (.other typ)

/-- What one iteration of the wait loop produces for the caller of `probe`.
`timeout` and `transportError` are the two flavours of a failed
`conn.ReadFrom` (the returned `error` satisfies `net.Error.Timeout()` or
not); `panicked` is the Go runtime panic raised by slicing
`TimeExceeded.Data` beyond its length. -/
inductive WaitOutcome
  | echoReply
  | timeExceeded
  | timeout
  | transportError
  | panicked
  deriving DecidableEq

/-- One event observed by `conn.ReadFrom` inside the wait loop: a datagram
(already stripped of its outer IPv4 header by the raw-socket layer) or a
read error, tagged with whether it is the deadline elapsing. -/
inductive ReadEvent
  | datagram (bytes : List Nat)
  | readErr (isTimeout : Bool)
  deriving DecidableEq

/-- One iteration of `probe`'s wait loop on one read event.  `some out`
means the loop ends with `out`; `none` means the datagram is discarded and
the loop keeps listening (`continue`).  This is a line-by-line embedding of
the Go loop body: a read error returns it to the caller; a parse error
continues; an Echo Reply returns only when both its identifier equals the
run token and its sequence equals the awaited sequence; a Time Exceeded
first slices `Data[24:26]` (a panic when `Data` is shorter than 26 bytes),
compares the embedded identifier, and only on a match slices `Data[26:28]`
(a panic when `Data` is shorter than 28 bytes) to compare the embedded
sequence; everything else falls through and continues. -/
def waitStep (token seq : Nat) : ReadEvent → Option WaitOutcome
  | .readErr t => some (if t then .timeout else .transportError)
  | .datagram b =>
    match parseMessage b with
    | none => none
    | some (.echoReply id sq _) =>
        if id = token ∧ sq = seq then some .echoReply else none
    | some (.timeExceeded data) =>
        if data.length < 26 then some .panicked
        else if be16 (data.getD 24 0) (data.getD 25 0) = token then
          if data.length < 28 then some .panicked
          else if be16 (data.getD 26 0) (data.getD 27 0) = seq then
            some .timeExceeded
          else none
        else none
    | some (.other _) => none

/-- The caller-visible read-deadline state: `conn.SetReadDeadline` is called
once per probe, before the wait loop starts, and never inside it. -/
structure WaitState where
  deadline : Nat
  deriving DecidableEq

/-- `probe`'s wait loop over a finite list of read events.  The deadline
state is threaded through unchanged (the loop body never calls
`SetReadDeadline`); `none` models a loop that is still blocked when the
event list runs out. -/
def waitLoop (token seq : Nat) (st : WaitState) : List ReadEvent → Option (WaitOutcome × WaitState)
  | [] => none
  | ev :: rest =>
    match waitStep token seq ev with
    | some out => some (out, st)
    | none => waitLoop token seq st rest

/-- A synthetic inbound Time-Exceeded ICMP message: type 11, code 0, zero
checksum, zero unused word, then the given payload (the copy of the expired
original packet). -/
def teMessage (payload : List Nat) : List Nat :=
  11 :: 0 :: 0 :: 0 :: 0 :: 0 :: 0 :: 0 :: payload

/-- A synthetic inbound Echo Reply ICMP message: type 0, code 0, zero
checksum, then big-endian identifier and sequence and the given trailing
data. -/
def echoReplyMessage (id seq : Nat) (data : List Nat) : List Nat :=
  0 :: 0 :: 0 :: 0 :: id / 256 :: id % 256 :: seq / 256 :: seq % 256 :: data

/-- The 16-bit-word accumulation of the library's `checksum` loop: words are
taken as `b[i+1]<<8 | b[i]` and a trailing odd byte is added as-is, exactly
as the Go loop over `i < len(b)-1` step 2 plus the `csumcv&1 == 0` tail
does. -/
def sumWords : List Nat → Nat
  | [] => 0
  | [x] => x
  | lo :: hi :: rest => (hi * 256 + lo) + sumWords rest

/-- The two carry-folding steps of the library's `checksum`
(`s = s>>16 + s&0xffff; s = s + s>>16`) followed by the truncation to 16
bits performed by the final `uint16` conversion. -/
def foldCarry (s : Nat) : Nat :=
  (s / 65536 + s % 65536 + (s / 65536 + s % 65536) / 65536) % 65536

/-- The library's `checksum(b)`: the ones'-complement (`^uint16`) of the
folded word sum.  A receiver accepts a message exactly when this function
returns 0 on the full message. -/
def goChecksum (b : List Nat) : Nat := 65535 - foldCarry (sumWords b)

/-- The fixed probe payload `[]byte("hello")`. -/
def helloBytes : List Nat := [104, 101, 108, 108, 111]

/-- `processID & icmpEchoIDMask`: the process identity masked to its low 16
bits (`0xffff`), the run token used as the ICMP Echo identifier. -/
def processIDKeep16 (pid : Nat) : Nat := pid % 65536

/-- The Echo Request bytes before the checksum is filled in: type 8 (Echo),
code 0, zero checksum, then the `icmp.Echo` body — big-endian `uint16(ID)`,
big-endian `uint16(Seq)`, then the fixed payload. -/
def uncheckedEcho (token seq : Nat) : List Nat :=
  8 :: 0 :: 0 :: 0 :: token % 65536 / 256 :: token % 256 ::
    seq % 65536 / 256 :: seq % 256 :: helloBytes

/-- `icmp.Message.Marshal(nil)` for the program's Echo Request: the header
and body bytes with the computed checksum written (low byte at index 2, high
byte at index 3, as `b[2] ^= byte(s); b[3] ^= byte(s >> 8)` does over the
zero placeholder). -/
def marshalMessage (token seq : Nat) : List Nat :=
  let c := goChecksum (uncheckedEcho token seq)
  8 :: 0 :: c % 256 :: c / 256 :: token % 65536 / 256 :: token % 256 ::
    seq % 65536 / 256 :: seq % 256 :: helloBytes

/-- The synthetic Echo-Reply wrapper of the round-trip property: the
marshalled Echo Request with its type byte rewritten from Echo (8) to
Echo Reply (0), as a replying destination host does. -/
def syntheticReply (b : List Nat) : List Nat := 0 :: b.drop 1

/-- `probe` after `SetReadDeadline` succeeded: marshal the Echo Request
(total for this fixed message shape), write it with
`conn.WriteTo(msgBytes, dstAddr)` — the source binds neither return value,
so whether the write failed (`sendFailed`) is dropped on the floor — and
then block in the wait loop. -/
def probeModel (token seq : Nat) (st : WaitState) (sendFailed : Bool)
    (evs : List ReadEvent) : Option (WaitOutcome × WaitState) :=
  let _msgBytes := marshalMessage token seq
  let _writeFailed := sendFailed
  waitLoop token seq st evs

/-- The three-way outcome of one `probe` call as `main` consumes it:
`reply` for `ipv4.ICMPTypeEchoReply`, `exceeded` for
`ipv4.ICMPTypeTimeExceeded`, `failed` for a non-nil error (timeout or any
other read failure), which `main` prints as `*` and skips. -/
inductive ProbeRes
  | reply
  | exceeded
  | failed
  deriving DecidableEq

/-- One issued probe of a run: the TTL it was sent with, the global
sequence number it carried, and its outcome. -/
structure Issued where
  ttl : Nat
  seq : Nat
  res : ProbeRes
  deriving DecidableEq

/-- How a run of `main`'s escalation loop ends: `reached` models
`os.Exit(0)` after a hop that saw an Echo Reply, `exhausted` models falling
off the `for TTL := 1; TTL <= maxTTL` loop. -/
inductive RunEnd
  | reached
  | exhausted
  deriving DecidableEq

/-- The `for range queries` inner loop of `main` at one TTL: `q` probes
issued with consecutive sequence numbers starting at the current value `c`
of `probeCounter`, each outcome given by the oracle. -/
def hopProbes (oracle : Nat → Nat → ProbeRes) (ttl c q : Nat) : List Issued :=
  (List.range q).map fun i => ⟨ttl, c + i, oracle ttl (c + i)⟩

/-- `main`'s TTL-escalation loop from a given TTL, counter value and number
of remaining TTL values: issue the full hop, then stop with `reached` when
any probe of the hop replied (`reachedDestination` is only tested after the
inner loop), else continue with the next TTL and the advanced counter. -/
def runAux (oracle : Nat → Nat → ProbeRes) (q : Nat) :
    Nat → Nat → Nat → List Issued × RunEnd
  | _, _, 0 => ([], .exhausted)
  | ttl, c, n + 1 =>
    let hop := hopProbes oracle ttl c q
    if hop.any fun p => p.res == .reply then (hop, .reached)
    else
      let r := runAux oracle q (ttl + 1) (c + q) n
      (hop ++ r.1, r.2)

/-- A full run of `main`: TTL starts at 1, `probeCounter` starts at 1, at
most `maxTTL` hops are probed. -/
def runDriver (oracle : Nat → Nat → ProbeRes) (q maxTTL : Nat) :
    List Issued × RunEnd :=
  runAux oracle q 1 1 maxTTL

/-! ## Parsing lemmas for the synthetic messages -/

theorem teMessage_parse (payload : List Nat) :
    parseMessage (teMessage payload) = some (.timeExceeded (payload.take 128)) := by
  simp [parseMessage, teMessage]

theorem echoReplyMessage_parse (id sq : Nat) (data : List Nat) :
    parseMessage (echoReplyMessage id sq data) = some (.echoReply id sq data) := by
  simp [parseMessage, echoReplyMessage, be16]
  omega

theorem getD_take_lt (l : List Nat) (i n : Nat) (h : i < n) :
    (l.take n).getD i 0 = l.getD i 0 := by
  simp [List.getD_eq_getElem?_getD, List.getElem?_take, h]

/-- A Time-Exceeded datagram with a payload long enough for both slicings
and whose embedded identifier and sequence both match is returned as a
`timeExceeded` outcome. -/
theorem waitStep_te_match (payload : List Nat) (h : 28 ≤ payload.length) :
    waitStep (be16 (payload.getD 24 0) (payload.getD 25 0))
        (be16 (payload.getD 26 0) (payload.getD 27 0))
        (.datagram (teMessage payload)) = some .timeExceeded := by
  have hL : ((payload.take 128).length < 26) = False := by
    simp only [List.length_take]
    simp only [eq_iff_iff, iff_false]
    omega
  have hL2 : ((payload.take 128).length < 28) = False := by
    simp only [List.length_take]
    simp only [eq_iff_iff, iff_false]
    omega
  have h24 := getD_take_lt payload 24 128 (by norm_num)
  have h25 := getD_take_lt payload 25 128 (by norm_num)
  have h26 := getD_take_lt payload 26 128 (by norm_num)
  have h27 := getD_take_lt payload 27 128 (by norm_num)
  simp only [waitStep, teMessage_parse, hL, hL2, h24, h25, h26, h27, if_false]
  simp

/-- A Time-Exceeded datagram with a payload long enough for both slicings
but whose embedded identity is not the awaited one is discarded. -/
theorem waitStep_te_foreign (token seq : Nat) (payload : List Nat)
    (h : 28 ≤ payload.length)
    (hne : ¬(be16 (payload.getD 24 0) (payload.getD 25 0) = token ∧
      be16 (payload.getD 26 0) (payload.getD 27 0) = seq)) :
    waitStep token seq (.datagram (teMessage payload)) = none := by
  have hL : ((payload.take 128).length < 26) = False := by
    simp only [List.length_take]
    simp only [eq_iff_iff, iff_false]
    omega
  have hL2 : ((payload.take 128).length < 28) = False := by
    simp only [List.length_take]
    simp only [eq_iff_iff, iff_false]
    omega
  have h24 := getD_take_lt payload 24 128 (by norm_num)
  have h25 := getD_take_lt payload 25 128 (by norm_num)
  have h26 := getD_take_lt payload 26 128 (by norm_num)
  have h27 := getD_take_lt payload 27 128 (by norm_num)
  simp only [waitStep, teMessage_parse, hL, hL2, h24, h25, h26, h27, if_false]
  by_cases h1 : be16 (payload.getD 24 0) (payload.getD 25 0) = token
  · have h2 : (be16 (payload.getD 26 0) (payload.getD 27 0) = seq) = False := by
      simp only [eq_iff_iff, iff_false]
      intro h2
      exact hne ⟨h1, h2⟩
    simp only [h1, h2, if_false]
    simp
  · simp only [if_neg h1]

/-- Discarded events are skipped by the wait loop without any other
effect. -/
theorem waitLoop_skip (token seq : Nat) (st : WaitState) (pre rest : List ReadEvent)
    (hpre : ∀ e ∈ pre, waitStep token seq e = none) :
    waitLoop token seq st (pre ++ rest) = waitLoop token seq st rest := by
  induction pre with
  | nil => simp
  | cons e pre ih =>
    have he : waitStep token seq e = none := hpre e (List.mem_cons_self e pre)
    simp only [List.cons_append, waitLoop, he]
    exact ih fun e' he' => hpre e' (List.mem_cons_of_mem e he')

/-! ## Internet-checksum lemmas -/

theorem foldCarry_lt (S : Nat) : foldCarry S < 65536 := by
  unfold foldCarry
  omega

theorem foldCarry_mod (S : Nat) (h2 : S ≤ 33554430) :
    foldCarry S % 65535 = S % 65535 := by
  unfold foldCarry
  by_cases h : S / 65536 + S % 65536 < 65536
  · have h0 : (S / 65536 + S % 65536) / 65536 = 0 := Nat.div_eq_of_lt h
    rw [h0]
    omega
  · have h1 : (S / 65536 + S % 65536) / 65536 = 1 := by omega
    rw [h1]
    have h2 : (S / 65536 + S % 65536 + 1) % 65536 =
        S / 65536 + S % 65536 + 1 - 65536 := by omega
    rw [h2]
    omega

theorem foldCarry_pos (S : Nat) (h1 : 0 < S) (h2 : S ≤ 33554430) :
    0 < foldCarry S := by
  unfold foldCarry
  by_cases h : S / 65536 + S % 65536 < 65536
  · have h0 : (S / 65536 + S % 65536) / 65536 = 0 := Nat.div_eq_of_lt h
    rw [h0]
    omega
  · have h1 : (S / 65536 + S % 65536) / 65536 = 1 := by omega
    rw [h1]
    omega

/-- Inserting the complement of the folded sum back into the message makes
the receiver-side check of the full message succeed: the heart of the
internet-checksum round trip. -/
theorem foldCarry_round (S : Nat) (h1 : 0 < S) (h2 : S ≤ 16777215) :
    foldCarry (65535 - foldCarry S + S) = 65535 := by
  have hFlt := foldCarry_lt S
  have hFmod := foldCarry_mod S (by omega)
  set T := 65535 - foldCarry S + S with hT
  have hTpos : 0 < T := by omega
  have hTb : T ≤ 33554430 := by omega
  have h3 := foldCarry_lt T
  have h4 := foldCarry_mod T hTb
  have h5 := foldCarry_pos T hTpos hTb
  omega

theorem sumWords_marshal (token seq : Nat) :
    sumWords (marshalMessage token seq) =
      65535 - foldCarry (sumWords (uncheckedEcho token seq)) +
        sumWords (uncheckedEcho token seq) := by
  simp only [marshalMessage, goChecksum]
  generalize 65535 - foldCarry (sumWords (uncheckedEcho token seq)) = c
  simp only [uncheckedEcho, helloBytes, sumWords]
  omega

theorem sumWords_unchecked_bounds (token seq : Nat) :
    0 < sumWords (uncheckedEcho token seq) ∧
      sumWords (uncheckedEcho token seq) ≤ 16777215 := by
  simp only [uncheckedEcho, helloBytes, sumWords]
  omega

/-- The transmitted Echo Request verifies: recomputing the checksum over the
full marshalled message (checksum bytes included) yields 0, so the checksum
written at bytes 2-3 was computed over the whole message and is neither the
zero placeholder nor stale. -/
theorem goChecksum_marshal (token seq : Nat) :
    goChecksum (marshalMessage token seq) = 0 := by
  obtain ⟨h1, h2⟩ := sumWords_unchecked_bounds token seq
  rw [goChecksum, sumWords_marshal, foldCarry_round _ h1 h2]

/-! ## Driver lemmas -/

theorem hopProbes_length (oracle : Nat → Nat → ProbeRes) (ttl c q : Nat) :
    (hopProbes oracle ttl c q).length = q := by
  simp [hopProbes]

theorem hopProbes_map_seq (oracle : Nat → Nat → ProbeRes) (ttl c q : Nat) :
    (hopProbes oracle ttl c q).map (·.seq) = List.range' c q := by
  simp [hopProbes, List.range'_eq_map_range]

theorem hopProbes_mem (oracle : Nat → Nat → ProbeRes) (ttl c q : Nat)
    (p : Issued) (hp : p ∈ hopProbes oracle ttl c q) :
    p.ttl = ttl ∧ c ≤ p.seq ∧ p.seq < c + q := by
  simp [hopProbes] at hp
  obtain ⟨i, hi, rfl⟩ := hp
  refine ⟨rfl, ?_, ?_⟩
  · show c ≤ c + i
    omega
  · show c + i < c + q
    omega

theorem hopProbes_map_ttl (oracle : Nat → Nat → ProbeRes) (ttl c q : Nat) :
    (hopProbes oracle ttl c q).map (·.ttl) = List.replicate q ttl := by
  refine List.eq_replicate_iff.mpr ⟨by simp [hopProbes], ?_⟩
  intro b hb
  simp [hopProbes] at hb
  obtain ⟨i, hi, rfl⟩ := hb
  rfl

theorem runAux_map_seq (oracle : Nat → Nat → ProbeRes) (q : Nat) :
    ∀ n ttl c, ((runAux oracle q ttl c n).1.map (·.seq)) =
      List.range' c ((runAux oracle q ttl c n).1.length) := by
  intro n
  induction n with
  | zero => intro ttl c; simp [runAux]
  | succ n ih =>
    intro ttl c
    simp only [runAux]
    by_cases h : (hopProbes oracle ttl c q).any fun p => p.res == .reply
    · simp only [h, if_true]
      rw [hopProbes_map_seq, hopProbes_length]
    · simp only [h, Bool.false_eq_true, if_false, List.map_append, List.length_append]
      rw [hopProbes_map_seq, hopProbes_length, ih (ttl + 1) (c + q)]
      have hr := List.range'_append c q ((runAux oracle q (ttl + 1) (c + q) n).1.length) 1
      simpa [Nat.add_comm] using hr

theorem runAux_ttl_bounds (oracle : Nat → Nat → ProbeRes) (q : Nat) :
    ∀ n ttl c, ∀ p ∈ (runAux oracle q ttl c n).1,
      ttl ≤ p.ttl ∧ p.ttl < ttl + n := by
  intro n
  induction n with
  | zero => intro ttl c p hp; simp [runAux] at hp
  | succ n ih =>
    intro ttl c p hp
    simp only [runAux] at hp
    by_cases h : (hopProbes oracle ttl c q).any fun p => p.res == .reply
    · rw [if_pos h] at hp
      have := (hopProbes_mem oracle ttl c q p hp).1
      omega
    · rw [if_neg h] at hp
      rcases List.mem_append.mp hp with hp | hp
      · have := (hopProbes_mem oracle ttl c q p hp).1
        omega
      · have := ih (ttl + 1) (c + q) p hp
        omega

theorem runAux_ttl_pairwise (oracle : Nat → Nat → ProbeRes) (q : Nat) :
    ∀ n ttl c, ((runAux oracle q ttl c n).1.map (·.ttl)).Pairwise (· ≤ ·) := by
  intro n
  induction n with
  | zero => intro ttl c; simp [runAux]
  | succ n ih =>
    intro ttl c
    simp only [runAux]
    by_cases h : (hopProbes oracle ttl c q).any fun p => p.res == .reply
    · rw [if_pos h]
      rw [hopProbes_map_ttl]
      exact List.pairwise_replicate.mpr (Or.inr (le_refl ttl))
    · rw [if_neg h]
      simp only [List.map_append]
      rw [List.pairwise_append]
      refine ⟨?_, ih (ttl + 1) (c + q), ?_⟩
      · rw [hopProbes_map_ttl]
        exact List.pairwise_replicate.mpr (Or.inr (le_refl ttl))
      · intro a ha b hb
        simp only [List.mem_map] at ha hb
        obtain ⟨pa, hpa, rfl⟩ := ha
        obtain ⟨pb, hpb, rfl⟩ := hb
        have h1 := (hopProbes_mem oracle ttl c q pa hpa).1
        have h2 := runAux_ttl_bounds oracle q n (ttl + 1) (c + q) pb hpb
        omega

theorem runAux_reached_iff (oracle : Nat → Nat → ProbeRes) (q : Nat) :
    ∀ n ttl c, (runAux oracle q ttl c n).2 = .reached ↔
      ∃ p ∈ (runAux oracle q ttl c n).1, p.res = .reply := by
  intro n
  induction n with
  | zero => intro ttl c; simp [runAux]
  | succ n ih =>
    intro ttl c
    simp only [runAux]
    by_cases h : (hopProbes oracle ttl c q).any fun p => p.res == .reply
    · rw [if_pos h]
      simp only [true_iff]
      rcases List.any_eq_true.mp h with ⟨p, hp, hres⟩
      exact ⟨p, hp, by simpa using hres⟩
    · rw [if_neg h]
      constructor
      · intro hr
        rcases (ih (ttl + 1) (c + q)).mp hr with ⟨p, hp, hres⟩
        exact ⟨p, List.mem_append_right _ hp, hres⟩
      · rintro ⟨p, hp, hres⟩
        rcases List.mem_append.mp hp with hp | hp
        · exact absurd (List.any_eq_true.mpr ⟨p, hp, by simpa using hres⟩) h
        · exact (ih (ttl + 1) (c + q)).mpr ⟨p, hp, hres⟩

theorem runAux_reply_max (oracle : Nat → Nat → ProbeRes) (q : Nat) :
    ∀ n ttl c, ∀ p ∈ (runAux oracle q ttl c n).1, p.res = .reply →
      ∀ pp ∈ (runAux oracle q ttl c n).1, pp.ttl ≤ p.ttl := by
  intro n
  induction n with
  | zero => intro ttl c p hp; simp [runAux] at hp
  | succ n ih =>
    intro ttl c p hp hres pp hpp
    simp only [runAux] at hp hpp
    by_cases h : (hopProbes oracle ttl c q).any fun x => x.res == .reply
    · rw [if_pos h] at hp hpp
      have h1 := (hopProbes_mem oracle ttl c q p hp).1
      have h2 := (hopProbes_mem oracle ttl c q pp hpp).1
      omega
    · rw [if_neg h] at hp hpp
      rcases List.mem_append.mp hp with hp | hp
      · exact absurd (List.any_eq_true.mpr ⟨p, hp, by simpa using hres⟩) h
      · have hple := ih (ttl + 1) (c + q) p hp hres
        rcases List.mem_append.mp hpp with hpp | hpp
        · have h1 := (hopProbes_mem oracle ttl c q pp hpp).1
          have h2 := runAux_ttl_bounds oracle q n (ttl + 1) (c + q) p hp
          omega
        · exact hple pp hpp

theorem runAux_reached_shape (oracle : Nat → Nat → ProbeRes) (q : Nat) :
    ∀ n ttl c, (runAux oracle q ttl c n).2 = .reached →
      ∃ k, 1 ≤ k ∧ k ≤ n ∧
        (runAux oracle q ttl c n).1.map (·.ttl) =
          (List.range' ttl k).flatMap (fun i => List.replicate q i) ∧
        ∃ p ∈ (runAux oracle q ttl c n).1, p.res = .reply ∧ p.ttl = ttl + k - 1 := by
  intro n
  induction n with
  | zero => intro ttl c hr; simp [runAux] at hr
  | succ n ih =>
    intro ttl c hr
    simp only [runAux] at hr ⊢
    by_cases h : (hopProbes oracle ttl c q).any fun x => x.res == .reply
    · rw [if_pos h] at hr ⊢
      refine ⟨1, le_refl 1, by omega, ?_, ?_⟩
      · rw [hopProbes_map_ttl]
        simp
      · rcases List.any_eq_true.mp h with ⟨p, hp, hres⟩
        refine ⟨p, hp, by simpa using hres, ?_⟩
        have := (hopProbes_mem oracle ttl c q p hp).1
        omega
    · rw [if_neg h] at hr ⊢
      obtain ⟨k, hk1, hkn, hmap, p, hp, hres, httl⟩ := ih (ttl + 1) (c + q) hr
      refine ⟨k + 1, by omega, by omega, ?_, ?_⟩
      · rw [List.map_append, hopProbes_map_ttl, hmap, List.range'_succ]
        simp
      · exact ⟨p, List.mem_append_right _ hp, hres, by omega⟩

theorem runAux_exhausted_shape (oracle : Nat → Nat → ProbeRes) (q : Nat) :
    ∀ n ttl c, (runAux oracle q ttl c n).2 = .exhausted →
      (runAux oracle q ttl c n).1.map (·.ttl) =
        (List.range' ttl n).flatMap (fun i => List.replicate q i) := by
  intro n
  induction n with
  | zero => intro ttl c _; simp [runAux]
  | succ n ih =>
    intro ttl c hr
    simp only [runAux] at hr ⊢
    by_cases h : (hopProbes oracle ttl c q).any fun x => x.res == .reply
    · rw [if_pos h] at hr
      exact absurd hr (by simp)
    · rw [if_neg h] at hr ⊢
      rw [List.map_append, hopProbes_map_ttl, ih (ttl + 1) (c + q) hr,
        List.range'_succ]
      simp

/-! ## The claims -/

/-- C1: the claim says a Time-Exceeded datagram whose payload is shorter
than 28 bytes is silently discarded and the loop keeps listening; the code
instead slices `Data[24:26]` unconditionally, which for any payload shorter
than 26 bytes is a runtime panic (`slice bounds out of range`) that aborts
the program.  This theorem evaluates the embedded loop body at such inputs:
the outcome is `panicked`, not a silent discard. -/
theorem short_timeExceeded_panics (token seq : Nat) (payload : List Nat)
    (h : payload.length < 26) :
    waitStep token seq (.datagram (teMessage payload)) = some .panicked := by
  have hL : (payload.take 128).length < 26 := by
    simp only [List.length_take]
    omega
  simp only [waitStep, teMessage_parse, if_pos hL]

theorem short_timeExceeded_panics_witness :
    waitStep 0 0 (.datagram (teMessage [])) = some WaitOutcome.panicked :=
  short_timeExceeded_panics 0 0 [] (by simp)

/-- C2: a Time-Exceeded payload made of a 20-byte inner IPv4 header (any
content) followed by at least the first 8 bytes of the inner ICMP Echo
header decodes with identifier = big-endian 16-bit value at payload bytes
24-25 and sequence = big-endian 16-bit value at payload bytes 26-27,
regardless of every other byte: the probe awaiting exactly that identity
accepts the datagram, and a probe awaiting any other identity discards
it. -/
theorem timeExceeded_embedded_extraction (payload : List Nat)
    (h : 28 ≤ payload.length) (_hbytes : ∀ x ∈ payload, x < 256) :
    parseMessage (teMessage payload) = some (.timeExceeded (payload.take 128)) ∧
    waitStep (be16 (payload.getD 24 0) (payload.getD 25 0))
        (be16 (payload.getD 26 0) (payload.getD 27 0))
        (.datagram (teMessage payload)) = some .timeExceeded ∧
    ∀ token seq : Nat,
      ¬(token = be16 (payload.getD 24 0) (payload.getD 25 0) ∧
        seq = be16 (payload.getD 26 0) (payload.getD 27 0)) →
      waitStep token seq (.datagram (teMessage payload)) = none := by
  refine ⟨teMessage_parse payload, waitStep_te_match payload h, ?_⟩
  intro token seq hne
  refine waitStep_te_foreign token seq payload h ?_
  intro hand
  exact hne ⟨hand.1.symm, hand.2.symm⟩

theorem timeExceeded_embedded_extraction_witness :
    waitStep 42 7
      (.datagram (teMessage (List.replicate 20 0 ++ [8, 0, 0, 0, 0, 42, 0, 7]))) =
      some WaitOutcome.timeExceeded := by
  have h := (timeExceeded_embedded_extraction
    (List.replicate 20 0 ++ [8, 0, 0, 0, 0, 42, 0, 7]) (by simp) (by decide)).2.1
  simpa using h

/-- C3: the wait loop returns the outcome of the first read event that the
classification accepts; every earlier datagram that the classification
discards — Echo Replies with a foreign identity, Time-Exceeded messages
with a foreign embedded identity, unparseable bytes — is skipped and the
loop continues, with the deadline state unchanged (the returned state is
the one set before the loop). -/
theorem awaitResponse_first_match (token seq : Nat) (st : WaitState)
    (pre rest : List ReadEvent) (ev : ReadEvent) (out : WaitOutcome)
    (hpre : ∀ e ∈ pre, waitStep token seq e = none)
    (hev : waitStep token seq ev = some out) :
    waitLoop token seq st (pre ++ ev :: rest) = some (out, st) ∧
    (∀ id sq : Nat, ∀ data : List Nat, ¬(id = token ∧ sq = seq) →
      waitStep token seq (.datagram (echoReplyMessage id sq data)) = none) ∧
    (∀ payload : List Nat, 28 ≤ payload.length →
      ¬(be16 (payload.getD 24 0) (payload.getD 25 0) = token ∧
        be16 (payload.getD 26 0) (payload.getD 27 0) = seq) →
      waitStep token seq (.datagram (teMessage payload)) = none) ∧
    (∀ b : List Nat, b.length < 4 → waitStep token seq (.datagram b) = none) := by
  refine ⟨?_, ?_, ?_, ?_⟩
  · rw [waitLoop_skip token seq st pre _ hpre]
    simp [waitLoop, hev]
  · intro id sq data hne
    simp only [waitStep, echoReplyMessage_parse, if_neg hne]
  · intro payload hlen hne
    exact waitStep_te_foreign token seq payload hlen hne
  · intro b hb
    simp only [waitStep, parseMessage, if_pos hb]

theorem awaitResponse_first_match_witness :
    waitLoop 5 9 ⟨100⟩
      ([ReadEvent.datagram (echoReplyMessage 6 9 []),
        ReadEvent.datagram (teMessage (List.replicate 20 0 ++ [8, 0, 0, 0, 0, 5, 0, 8]))] ++
        ReadEvent.datagram (echoReplyMessage 5 9 []) :: []) =
      some (WaitOutcome.echoReply, ⟨100⟩) :=
  (awaitResponse_first_match 5 9 ⟨100⟩
    [ReadEvent.datagram (echoReplyMessage 6 9 []),
     ReadEvent.datagram (teMessage (List.replicate 20 0 ++ [8, 0, 0, 0, 0, 5, 0, 8]))]
    [] (ReadEvent.datagram (echoReplyMessage 5 9 [])) WaitOutcome.echoReply
    (by decide) (by decide)).1

/-- C4: when the wait ends without a match because the read failed, the
probe returns the read error: the deadline flavour becomes the `timeout`
outcome and any other failure the `transportError` outcome, and the two
outcomes are distinct, so the caller can tell them apart. -/
theorem awaitResponse_timeout_vs_transport (token seq : Nat) (st : WaitState)
    (pre rest : List ReadEvent) (tm : Bool)
    (hpre : ∀ e ∈ pre, waitStep token seq e = none) :
    waitLoop token seq st (pre ++ .readErr tm :: rest) =
      some (if tm then .timeout else .transportError, st) ∧
    WaitOutcome.timeout ≠ WaitOutcome.transportError := by
  refine ⟨?_, by decide⟩
  rw [waitLoop_skip token seq st pre _ hpre]
  simp [waitLoop, waitStep]

theorem awaitResponse_timeout_vs_transport_witness :
    waitLoop 1 2 ⟨0⟩ [ReadEvent.readErr true] = some (WaitOutcome.timeout, ⟨0⟩) ∧
    waitLoop 1 2 ⟨0⟩ [ReadEvent.readErr false] =
      some (WaitOutcome.transportError, ⟨0⟩) := by
  constructor
  · have h := (awaitResponse_timeout_vs_transport 1 2 ⟨0⟩ [] [] true (by simp)).1
    simpa using h
  · have h := (awaitResponse_timeout_vs_transport 1 2 ⟨0⟩ [] [] false (by simp)).1
    simpa using h

/-- C5: across a whole run the sequence numbers of the issued probes are
exactly the consecutive range starting at 1 — the counter starts at 1,
advances once per issued probe (also for probes whose outcome is an error)
and is never reset across TTL values — hence pairwise distinct. -/
theorem sequence_numbers_unique (oracle : Nat → Nat → ProbeRes) (q maxTTL : Nat)
    (_hq : 1 ≤ q) :
    (runDriver oracle q maxTTL).1.map (·.seq) =
      List.range' 1 (runDriver oracle q maxTTL).1.length ∧
    ((runDriver oracle q maxTTL).1.map (·.seq)).Nodup := by
  simp only [runDriver]
  have h := runAux_map_seq oracle q maxTTL 1 1
  refine ⟨h, ?_⟩
  rw [h]
  exact List.nodup_range' _ _

theorem sequence_numbers_unique_witness :
    ((runDriver (fun _ _ => ProbeRes.exceeded) 3 5).1.map (·.seq)).Nodup :=
  (sequence_numbers_unique (fun _ _ => ProbeRes.exceeded) 3 5 (by simp)).2

/-- C6: the escalation driver only issues probes with TTL between 1 and
maxTTL, visits TTL values in nondecreasing order, ends `reached` exactly
when some probe of the run produced an Echo Reply (and then no probe of a
higher TTL than the replying hop was issued), and otherwise ends
`exhausted` — and an exhausted run visited every TTL value 1, 2, ...,
maxTTL, q probes each, terminating normally in that distinct state. -/
theorem ttl_escalation_terminal (oracle : Nat → Nat → ProbeRes) (q maxTTL : Nat) :
    (∀ p ∈ (runDriver oracle q maxTTL).1, 1 ≤ p.ttl ∧ p.ttl ≤ maxTTL) ∧
    ((runDriver oracle q maxTTL).1.map (·.ttl)).Pairwise (· ≤ ·) ∧
    ((runDriver oracle q maxTTL).2 = .reached ↔
      ∃ p ∈ (runDriver oracle q maxTTL).1, p.res = .reply) ∧
    ((runDriver oracle q maxTTL).2 = .exhausted ↔
      ∀ p ∈ (runDriver oracle q maxTTL).1, p.res ≠ .reply) ∧
    (∀ p ∈ (runDriver oracle q maxTTL).1, p.res = .reply →
      ∀ pp ∈ (runDriver oracle q maxTTL).1, pp.ttl ≤ p.ttl) ∧
    ((runDriver oracle q maxTTL).2 = .exhausted →
      (runDriver oracle q maxTTL).1.map (·.ttl) =
        (List.range' 1 maxTTL).flatMap (fun i => List.replicate q i)) := by
  simp only [runDriver]
  have hiff := runAux_reached_iff oracle q maxTTL 1 1
  refine ⟨?_, runAux_ttl_pairwise oracle q maxTTL 1 1, hiff, ?_,
    runAux_reply_max oracle q maxTTL 1 1,
    runAux_exhausted_shape oracle q maxTTL 1 1⟩
  · intro p hp
    have := runAux_ttl_bounds oracle q maxTTL 1 1 p hp
    omega
  · constructor
    · intro hex p hp hres
      have hr : (runAux oracle q 1 1 maxTTL).2 = .reached := hiff.mpr ⟨p, hp, hres⟩
      rw [hr] at hex
      exact RunEnd.noConfusion hex
    · intro hall
      cases hE : (runAux oracle q 1 1 maxTTL).2 with
      | reached =>
        rcases hiff.mp hE with ⟨p, hp, hres⟩
        exact absurd hres (hall p hp)
      | exhausted => rfl

/-- C7: the marshalled Echo Request is well-formed: type byte 8 (Echo),
code byte 0, identifier field = the run token (the process identity masked
to its low 16 bits), sequence field = the given sequence number, the fixed
non-empty payload, and a checksum computed over the full message — the
receiver-side recomputation over the transmitted bytes yields 0. -/
theorem encode_echo_request_wellformed (pid seq : Nat) (hs : seq < 65536) :
    (marshalMessage (processIDKeep16 pid) seq).getD 0 0 = 8 ∧
    (marshalMessage (processIDKeep16 pid) seq).getD 1 0 = 0 ∧
    be16 ((marshalMessage (processIDKeep16 pid) seq).getD 4 0)
        ((marshalMessage (processIDKeep16 pid) seq).getD 5 0) = processIDKeep16 pid ∧
    be16 ((marshalMessage (processIDKeep16 pid) seq).getD 6 0)
        ((marshalMessage (processIDKeep16 pid) seq).getD 7 0) = seq ∧
    (marshalMessage (processIDKeep16 pid) seq).drop 8 = helloBytes ∧
    helloBytes ≠ [] ∧
    processIDKeep16 pid < 65536 ∧
    goChecksum (marshalMessage (processIDKeep16 pid) seq) = 0 := by
  have ht : processIDKeep16 pid < 65536 := by
    unfold processIDKeep16
    omega
  have main : (marshalMessage (processIDKeep16 pid) seq).getD 0 0 = 8 ∧
      (marshalMessage (processIDKeep16 pid) seq).getD 1 0 = 0 ∧
      be16 ((marshalMessage (processIDKeep16 pid) seq).getD 4 0)
        ((marshalMessage (processIDKeep16 pid) seq).getD 5 0) = processIDKeep16 pid ∧
      be16 ((marshalMessage (processIDKeep16 pid) seq).getD 6 0)
        ((marshalMessage (processIDKeep16 pid) seq).getD 7 0) = seq ∧
      (marshalMessage (processIDKeep16 pid) seq).drop 8 = helloBytes := by
    simp [marshalMessage, be16, processIDKeep16]
    omega
  obtain ⟨m1, m2, m3, m4, m5⟩ := main
  exact ⟨m1, m2, m3, m4, m5, by simp [helloBytes], ht, goChecksum_marshal _ _⟩

theorem encode_echo_request_wellformed_witness :
    goChecksum (marshalMessage (processIDKeep16 81234) 7) = 0 :=
  (encode_echo_request_wellformed 81234 7 (by norm_num)).2.2.2.2.2.2.2

/-- C8: encode/decode round trip — marshalling any 16-bit identity into an
Echo Request and decoding the bytes through the synthetic Echo-Reply
wrapper recovers exactly the same run token and sequence, and the probe
awaiting that identity accepts the datagram. -/
theorem encode_decode_roundtrip (token seq : Nat) (ht : token < 65536)
    (hs : seq < 65536) :
    parseMessage (syntheticReply (marshalMessage token seq)) =
      some (.echoReply token seq helloBytes) ∧
    waitStep token seq (.datagram (syntheticReply (marshalMessage token seq))) =
      some .echoReply := by
  have hp : parseMessage (syntheticReply (marshalMessage token seq)) =
      some (.echoReply token seq helloBytes) := by
    simp [parseMessage, syntheticReply, marshalMessage, helloBytes, be16]
    omega
  refine ⟨hp, ?_⟩
  simp [waitStep, hp]

theorem encode_decode_roundtrip_witness :
    waitStep 4660 22136
      (.datagram (syntheticReply (marshalMessage 4660 22136))) =
      some WaitOutcome.echoReply :=
  (encode_decode_roundtrip 4660 22136 (by norm_num) (by norm_num)).2

/-- C9: in the final flag-driven version, a run that ends `reached` still
issued the full per-hop quota of q probes at the successful TTL — the TTL
trace is exactly TTL values 1..t, each repeated q times, with the Echo
Reply inside hop t — and no probe at any higher TTL was issued. -/
theorem reached_full_quota (oracle : Nat → Nat → ProbeRes) (q maxTTL : Nat)
    (h : (runDriver oracle q maxTTL).2 = .reached) :
    ∃ t, 1 ≤ t ∧ t ≤ maxTTL ∧
      (runDriver oracle q maxTTL).1.map (·.ttl) =
        (List.range' 1 t).flatMap (fun i => List.replicate q i) ∧
      ∃ p ∈ (runDriver oracle q maxTTL).1, p.res = .reply ∧ p.ttl = t := by
  simp only [runDriver] at h ⊢
  obtain ⟨k, hk1, hkn, hmap, p, hp, hres, httl⟩ :=
    runAux_reached_shape oracle q maxTTL 1 1 h
  exact ⟨k, hk1, hkn, hmap, p, hp, hres, by omega⟩

theorem reached_full_quota_witness :
    ∃ t, 1 ≤ t ∧ t ≤ 5 ∧
      (runDriver (fun _ _ => ProbeRes.reply) 3 5).1.map (·.ttl) =
        (List.range' 1 t).flatMap (fun i => List.replicate 3 i) ∧
      ∃ p ∈ (runDriver (fun _ _ => ProbeRes.reply) 3 5).1,
        p.res = ProbeRes.reply ∧ p.ttl = t :=
  reached_full_quota (fun _ _ => ProbeRes.reply) 3 5 (by decide)

/-- C10: the result of writing the Echo Request to the socket is discarded
by `probe` — a failed transmission produces no distinct outcome, and the
probe's result is exactly the wait loop's result over the subsequent read
events (so a lost probe shows up at most as a timeout or read error). -/
theorem write_error_ignored (token seq : Nat) (st : WaitState)
    (evs : List ReadEvent) :
    probeModel token seq st true evs = probeModel token seq st false evs ∧
    ∀ sendFailed : Bool,
      probeModel token seq st sendFailed evs = waitLoop token seq st evs :=
  ⟨rfl, fun _ => rfl⟩

end Traceroute
